import Mathlib

/-!
# Verification of the clockify_utils entry-planning and description-variation engine

A shallow embedding, in Lean 4, of the core logic of the `clockify_utils`
repository (files `description_generator.py`, `weekly_scheduler.py`,
`clockify_client.py`), together with theorems settling the behavioural
claims made about it.

Modelling conventions:
* Python `datetime` values are modelled as natural numbers counting minutes
  since an epoch whose day 0 is a Thursday (Unix epoch, 1970-01-01); a
  calendar day is `t / 1440`, and `weekday d = (d + 3) % 7` with
  Monday = 0 … Sunday = 6, matching Python's `datetime.weekday()`.
* Python's global `random` source is modelled by explicit "tapes" of random
  decisions threaded through the functions (`GenRand`, `VariationRand`):
  `random.choice` becomes an arbitrary index reduced modulo the list length,
  `random.shuffle` an arbitrary index permutation, `random.sample(pop, k)`
  an arbitrary duplicate-free index sequence of length `k` (Python's
  `sample` returns its elements in random selection order, so the order of
  the index sequence is unconstrained).
* Python dictionaries keyed by strings are modelled as functions
  `String → List _` (absent key = empty list), sets as lists with
  membership; optional / possibly-missing dictionary fields as `Option`.
-/

namespace ClockifyUtils

/-! ## description_generator.py -/

/-- State of a `DescriptionGenerator` instance: the template pool
(`self.templates`) and the bounded recency buffer (`self._used_recently`). -/
structure GenState where
  templates : List String
  used_recently : List String
  deriving Repr, DecidableEq, Inhabited

/-- `DescriptionGenerator.__init__(templates)`: `self.templates = templates or []`,
`self._used_recently = []`. -/
def GenState.init (templates : Option (List String)) : GenState :=
  { templates := templates.getD [], used_recently := [] }

/-- `add_templates`: `self.templates.extend(templates)`. -/
def GenState.add_templates (s : GenState) (ts : List String) : GenState :=
  { s with templates := s.templates ++ ts }

/-- Random decisions consumed by one `_create_variation` call:
the shuffle roll (`random.random() < 0.3`), the permutation produced by
`random.shuffle`, the drop roll (`random.random() < 0.2`), and the index
sequence produced by `random.sample(activities, len(activities) - 1)`. -/
structure VariationRand where
  shuffleRoll : Bool
  perm : List Nat
  dropRoll : Bool
  sample : List Nat
  deriving Repr, DecidableEq, Inhabited

/-- Reindexing a list of strings by a list of positions (out-of-range
positions give `""`; validity side conditions are stated separately). -/
def applyIdx (l : List String) (idxs : List Nat) : List String :=
  idxs.map (fun i => l.getD i "")

/-- `idxs` is a valid output of `random.shuffle` on a list of length `n`:
a permutation of the positions `0 … n-1`. -/
def ValidPerm (idxs : List Nat) (n : Nat) : Prop :=
  idxs.Perm (List.range n)

/-- `idxs` is a valid output of `random.sample(pop, n - 1)` for a population
of length `n`: `n - 1` distinct positions, each `< n`, in any order. -/
def ValidSample (idxs : List Nat) (n : Nat) : Prop :=
  idxs.Nodup ∧ idxs.length = n - 1 ∧ ∀ i ∈ idxs, i < n

/-- Python's `template.split(",")` over the character list: split at every
comma, keeping empty pieces (so `""` yields one empty piece, `"a,,b"` yields
an empty middle piece), exactly as Python's `str.split` with an explicit
separator. Implemented by structural recursion so that it evaluates inside
the kernel. -/
def splitOnComma : List Char → List (List Char)
  | [] => [[]]
  | c :: rest =>
    if c = ',' then [] :: splitOnComma rest
    else
      match splitOnComma rest with
      | [] => [[c]]
      | g :: gs => (c :: g) :: gs

/-- Python's `str.strip()`: remove leading and trailing whitespace. -/
def trimChars (l : List Char) : List Char :=
  ((l.dropWhile Char.isWhitespace).reverse.dropWhile Char.isWhitespace).reverse

/-- `activities = [a.strip() for a in template.split(",")]`. -/
def splitPhrases (template : String) : List String :=
  (splitOnComma template.data).map (fun p => String.mk (trimChars p))

/-- The shuffle perturbation:
`if len(activities) > 1 and random.random() < 0.3: random.shuffle(activities)`. -/
def shuffleStep (activities : List String) (vr : VariationRand) : List String :=
  if activities.length > 1 ∧ vr.shuffleRoll then applyIdx activities vr.perm
  else activities

/-- The drop perturbation: `if len(activities) > 2 and random.random() < 0.2:
activities = random.sample(activities, len(activities) - 1)`. -/
def dropStep (activities : List String) (vr : VariationRand) : List String :=
  if activities.length > 2 ∧ vr.dropRoll then applyIdx activities vr.sample
  else activities

/-- `DescriptionGenerator._create_variation(template)`: split on commas and
trim each phrase, shuffle the phrases with probability 0.3 when there are
more than one, then drop one phrase (via `random.sample`) with probability
0.2 when there are more than two, and rejoin with `", "`. -/
def create_variation (template : String) (vr : VariationRand) : String :=
  String.intercalate ", " (dropStep (shuffleStep (splitPhrases template) vr) vr)

/-- Random decisions consumed by one `generate()` call: the index drawn by
`random.choice(available)` (reduced modulo the length of `available`) and
the variation tape. -/
structure GenRand where
  pick : Nat
  vr : VariationRand
  deriving Repr, DecidableEq, Inhabited

/-- Result of one `generate()` call: the returned description, the template
that `random.choice` selected (`none` when the pool was empty and the fixed
fallback was returned), and the updated generator state. -/
structure GenResult where
  description : String
  chosen : Option String
  state : GenState
  deriving Repr, DecidableEq, Inhabited

/-- The list `available = [t for t in self.templates if t not in self._used_recently]`. -/
def availableOf (s : GenState) : List String :=
  s.templates.filter (fun t => ! s.used_recently.contains t)

/-- The candidate list and recency buffer actually used by the call: when
`available` is empty the buffer is cleared (`self._used_recently.clear()`)
and the candidates reset to the full template list. -/
def poolOf (s : GenState) : List String × List String :=
  if (availableOf s).isEmpty then (s.templates, ([] : List String))
  else (availableOf s, s.used_recently)

/-- `chosen = random.choice(available)`: the tape index reduced modulo the
candidate count. -/
def chosenOf (s : GenState) (pick : Nat) : String :=
  (poolOf s).1.getD (pick % (poolOf s).1.length) ""

/-- `self._used_recently.append(chosen)` followed by
`if len(self._used_recently) > 3: self._used_recently.pop(0)`. -/
def pushRecent (used : List String) (c : String) : List String :=
  if (used ++ [c]).length > 3 then (used ++ [c]).tail else used ++ [c]

/-- `DescriptionGenerator.generate()`. Empty pool: return the fixed fallback
without touching the state. Otherwise: choose a candidate from the
templates not in the recency buffer (resetting the buffer when all have
been used recently), append it to the buffer evicting the oldest entry
beyond capacity 3, and return the variation transform of the chosen
template. -/
def generate (s : GenState) (r : GenRand) : GenResult :=
  if s.templates.isEmpty then
    { description := "general work and updates", chosen := none, state := s }
  else
    { description := create_variation (chosenOf s r.pick) r.vr
      chosen := some (chosenOf s r.pick)
      state := { s with used_recently := pushRecent (poolOf s).2 (chosenOf s r.pick) } }

/-- A historical time entry as consumed by `DescriptionGenerator.from_history`:
`entry.get("projectId")` and `entry.get("description", "")` may be absent. -/
structure HistoryEntry where
  projectId : Option String
  description : Option String
  deriving Repr, DecidableEq, Inhabited

/-- One step of the accumulation loop in `from_history`: `templates` is the
first-seen order list, `seen` the membership set. -/
def fromHistoryStep (acc : List String × List String) (e : HistoryEntry)
    (project_id : String) : List String × List String :=
  if e.projectId ≠ some project_id then acc
  else
    let desc := (e.description.getD "").trim
    if desc ≠ "" ∧ ¬ acc.2.contains desc then (acc.1 ++ [desc], desc :: acc.2)
    else acc

/-- `DescriptionGenerator.from_history(entries, project_id)`: extract, in
first-seen order, the distinct non-empty trimmed descriptions of the entries
of the given project, and build a fresh generator from them. -/
def from_history (entries : List HistoryEntry) (project_id : String) : GenState :=
  let acc := entries.foldl (fun acc e => fromHistoryStep acc e project_id) ([], [])
  { templates := acc.1, used_recently := [] }

/-! ## clockify_client.py — duplicate-detection index -/

/-- A time entry as returned by the Clockify API and consumed by
`get_existing_entries_by_project_and_date`: `entry.get("projectId")` may be
absent, and `entry.get("timeInterval", {}).get("start", "")` may be absent
at either level. An absent field is `none`; Python's falsy test additionally
treats the empty string as absent, which the definitions reproduce. -/
structure RecordedEntry where
  projectId : Option String
  timeIntervalStart : Option String
  deriving Repr, DecidableEq, Inhabited

/-- `entry.get("timeInterval", {}).get("start", "")`. -/
def RecordedEntry.startStr (e : RecordedEntry) : String :=
  e.timeIntervalStart.getD ""

/-- One iteration of the loop in `get_existing_entries_by_project_and_date`:
skip the entry when `projectId` is falsy (absent or empty) or the start
string is empty, otherwise register the first 10 characters of the start
string under the project key. The dictionary-of-sets is modelled as a
function from keys to the list of registered date strings (absent key =
empty list). -/
def indexStep (m : String → List String) (e : RecordedEntry) :
    String → List String :=
  match e.projectId with
  | none => m
  | some pid =>
    if pid = "" then m
    else
      let s := e.startStr
      if s = "" then m
      else fun q => if q = pid then s.take 10 :: m q else m q

/-- `get_existing_entries_by_project_and_date`, given the already-fetched
entries: fold `indexStep` over them starting from the empty dictionary. -/
def buildExistingIndex (entries : List RecordedEntry) : String → List String :=
  entries.foldl indexStep (fun _ => [])

/-- The duplicate lookup performed by `main`:
`existing.get(project_id, set())` followed by `date_str in project_dates`.
An absent project key yields the empty set, so the lookup returns `false`
rather than raising. -/
def indexContains (m : String → List String) (p d : String) : Bool :=
  (m p).contains d

/-! ## weekly_scheduler.py — planning -/

/-- A configured schedule item, one element of `config["schedule"]`:
`project["project_id"]` is required, `project.get("daily_minutes", 60)`,
`project.get("name", "Unknown")` and
`project.get("description_templates", [])` are optional. -/
structure ScheduleItem where
  project_id : String
  name : Option String
  daily_minutes : Option Nat
  description_templates : Option (List String)
  deriving Repr, DecidableEq, Inhabited

/-- The duration used for an item: `project.get("daily_minutes", 60)`. -/
def ScheduleItem.duration (p : ScheduleItem) : Nat :=
  p.daily_minutes.getD 60

/-- A planned time slot, one element of `calculate_time_slots`' result. The
timestamps are minutes since the epoch. -/
structure Slot where
  start : Nat
  stop : Nat
  project_id : String
  project_name : String
  templates : List String
  deriving Repr, DecidableEq, Inhabited

/-- `datetime.weekday()` of the calendar day `d` (days since the epoch):
Monday = 0 … Sunday = 6; day 0 (1970-01-01) is a Thursday. -/
def weekday (d : Nat) : Nat :=
  (d + 3) % 7

/-- `datetime.weekday()` of the calendar day containing the minute
timestamp `t`. -/
def weekdayAt (t : Nat) : Nat :=
  weekday (t / 1440)

/-- The loop of `get_week_dates`, with its iteration count made explicit:
starting from day `current`, run `fuel` iterations of
`if current.weekday() < 5: dates.append(current); current += 1 day`. -/
def weekDatesLoop (current : Nat) : Nat → List Nat
  | 0 => []
  | fuel + 1 =>
    if weekday current < 5 then current :: weekDatesLoop (current + 1) fuel
    else weekDatesLoop (current + 1) fuel

/-- `get_week_dates(start_date, end_date)`: the business days (Mon–Fri)
within the inclusive day range; `e + 1 - s` is the number of iterations of
the `while current <= end_date` loop (zero when `s > e`). -/
def get_week_dates (s e : Nat) : List Nat :=
  weekDatesLoop s (e + 1 - s)

/-- The loop of `calculate_time_slots`, threading `current_time`:
each item yields a slot `[current_time, current_time + duration)` carrying
the item's name and templates, and advances `current_time` to the end. -/
def calcSlotsLoop (current : Nat) : List ScheduleItem → List Slot
  | [] => []
  | p :: rest =>
    let end_time := current + p.duration
    { start := current
      stop := end_time
      project_id := p.project_id
      project_name := p.name.getD "Unknown"
      templates := p.description_templates.getD [] } :: calcSlotsLoop end_time rest

/-- `calculate_time_slots(date, schedule, start_hour)`: the first slot
starts at `date.replace(hour=start_hour, minute=0, second=0)`, i.e. minute
`start_hour * 60` of the calendar day `date`. -/
def calculate_time_slots (date : Nat) (schedule : List ScheduleItem)
    (start_hour : Nat) : List Slot :=
  calcSlotsLoop (date * 1440 + start_hour * 60) schedule

/-- The planned output of a whole run: for each selected business day, in
order, the day's slots (the iteration structure of `main`'s loop, flattened). -/
def planSlots (s e : Nat) (schedule : List ScheduleItem) (start_hour : Nat) :
    List Slot :=
  (get_week_dates s e).flatMap (fun d => calculate_time_slots d schedule start_hour)

/-! ## weekly_scheduler.py — the per-slot run loop of `main`

Calendar-date strings (`date.strftime("%Y-%m-%d")`, and the 10-character
prefixes keyed in the duplicate index) are represented by day ordinals:
the formatting is injective on calendar days and carries no logic of its
own, so the duplicate lookup `date_str in existing.get(project_id, set())`
becomes membership of the day ordinal in the project's registered days. -/

/-- Arguments and configuration fixed for a whole run of `main`'s loop. -/
structure RunArgs where
  schedule : List ScheduleItem
  start_hour : Nat
  dry_run : Bool
  analyze_history : Bool
  history_entries : List HistoryEntry
  existingDays : String → List Nat
  deriving Inhabited

/-- Per-slot outcome, as classified by `main`'s loop body. -/
inductive Outcome where
  | skipped
  | previewed
  | created
  | failed
  deriving Repr, DecidableEq, Inhabited

/-- Trace record of one processed slot: the generator state at the moment
`generate()` was called (`none` for skipped slots), the selected template
and the produced description. -/
structure SlotRecord where
  project_id : String
  day : Nat
  outcome : Outcome
  drawState : Option GenState
  chosen : Option String
  description : Option String
  deriving Repr, DecidableEq, Inhabited

/-- The `# Generate description` block of `main`: a history-seeded generator
(with the slot's own templates merged in when non-empty) when
`args.analyze_history and history_entries` is truthy, otherwise a generator
built directly from the slot's templates. -/
def selectGenerator (analyze_history : Bool) (history_entries : List HistoryEntry)
    (slot : Slot) : GenState :=
  if analyze_history ∧ ¬ history_entries.isEmpty then
    let g := from_history history_entries slot.project_id
    if ¬ slot.templates.isEmpty then g.add_templates slot.templates else g
  else GenState.init (some slot.templates)

/-- Mutable state threaded through `main`'s loop: the two counters, the
random tape consumed by `generate()`, the tape of success/failure answers
of `create_time_entry` calls, and the (ghost) trace of processed slots. -/
structure RunState where
  entries_created : Nat
  entries_skipped : Nat
  genTape : List GenRand
  createTape : List Bool
  trace : List SlotRecord
  deriving Repr, Inhabited

/-- The body of `main`'s inner `for slot in slots` loop: skip when the
duplicate index already has the slot's project on the slot's day; otherwise
build a generator, generate a description, and either preview (dry run) or
attempt the create call, counting a success and merely logging a failure. -/
def processSlot (args : RunArgs) (d : Nat) (slot : Slot) (st : RunState) :
    RunState :=
  let project_dates := args.existingDays slot.project_id
  if project_dates.contains d then
    { st with entries_skipped := st.entries_skipped + 1
              trace := st.trace ++
                [{ project_id := slot.project_id, day := d, outcome := .skipped
                   drawState := none, chosen := none, description := none }] }
  else
    let g := selectGenerator args.analyze_history args.history_entries slot
    let r := st.genTape.headD default
    let res := generate g r
    let st' := { st with genTape := st.genTape.tail }
    if args.dry_run then
      { st' with trace := st'.trace ++
          [{ project_id := slot.project_id, day := d, outcome := .previewed
             drawState := some g, chosen := res.chosen
             description := some res.description }] }
    else
      let ok := st'.createTape.headD true
      let st'' := { st' with createTape := st'.createTape.tail }
      if ok then
        { st'' with entries_created := st''.entries_created + 1
                    trace := st''.trace ++
            [{ project_id := slot.project_id, day := d, outcome := .created
               drawState := some g, chosen := res.chosen
               description := some res.description }] }
      else
        { st'' with trace := st''.trace ++
            [{ project_id := slot.project_id, day := d, outcome := .failed
               drawState := some g, chosen := res.chosen
               description := some res.description }] }

/-- One iteration of `main`'s `for date in dates` loop: compute the day's
slots and process them in order. -/
def processDay (args : RunArgs) (st : RunState) (d : Nat) : RunState :=
  (calculate_time_slots d args.schedule args.start_hour).foldl
    (fun st slot => processSlot args d slot st) st

/-- `main`'s whole planning loop over the selected business days. -/
def runScheduler (args : RunArgs) (s e : Nat) (genTape : List GenRand)
    (createTape : List Bool) : RunState :=
  (get_week_dates s e).foldl (processDay args)
    { entries_created := 0, entries_skipped := 0, genTape := genTape
      createTape := createTape, trace := [] }

/-- The data of the final summary printed by `main`. -/
structure Summary where
  createdLine : Nat
  skippedLine : Nat
  deriving Repr, DecidableEq, Inhabited

/-- The summary block of `main`: in dry-run mode
`len(dates) * len(schedule) - entries_skipped` would-create entries,
otherwise the created and skipped counters. -/
def printedSummary (args : RunArgs) (s e : Nat) (st : RunState) : Summary :=
  if args.dry_run then
    { createdLine := (get_week_dates s e).length * args.schedule.length -
        st.entries_skipped
      skippedLine := st.entries_skipped }
  else
    { createdLine := st.entries_created, skippedLine := st.entries_skipped }

/-- Number of trace records with a given outcome. -/
def countOutcome (o : Outcome) (tr : List SlotRecord) : Nat :=
  (tr.filter (fun rec => rec.outcome = o)).length

/-! ## Helper lemmas about `calculate_time_slots` -/

lemma calcSlotsLoop_length (sched : List ScheduleItem) :
    ∀ cur, (calcSlotsLoop cur sched).length = sched.length := by
  induction sched with
  | nil => intro cur; rfl
  | cons p rest ih => intro cur; simp [calcSlotsLoop, ih]

lemma calcSlotsLoop_get_start (sched : List ScheduleItem) :
    ∀ (cur i : Nat) (hs : i < (calcSlotsLoop cur sched).length),
      ((calcSlotsLoop cur sched).get ⟨i, hs⟩).start =
        cur + ((sched.map ScheduleItem.duration).take i).sum := by
  induction sched with
  | nil => intro cur i hs; simp [calcSlotsLoop] at hs
  | cons p rest ih =>
    intro cur i hs
    cases i with
    | zero => simp [calcSlotsLoop]
    | succ j =>
      have hs' : j < (calcSlotsLoop (cur + p.duration) rest).length := by
        simpa [calcSlotsLoop] using hs
      have hstep : ((calcSlotsLoop cur (p :: rest)).get ⟨j + 1, hs⟩) =
          ((calcSlotsLoop (cur + p.duration) rest).get ⟨j, hs'⟩) := rfl
      rw [hstep, ih (cur + p.duration) j hs']
      simp [List.take_succ_cons, Nat.add_assoc]

lemma calcSlotsLoop_get_stop (sched : List ScheduleItem) :
    ∀ (cur i : Nat) (hi : i < sched.length)
      (hs : i < (calcSlotsLoop cur sched).length),
      ((calcSlotsLoop cur sched).get ⟨i, hs⟩).stop =
        ((calcSlotsLoop cur sched).get ⟨i, hs⟩).start +
          (sched.get ⟨i, hi⟩).duration := by
  induction sched with
  | nil => intro cur i hi hs; simp at hi
  | cons p rest ih =>
    intro cur i hi hs
    cases i with
    | zero => simp [calcSlotsLoop]
    | succ j =>
      have hi' : j < rest.length := by simpa using hi
      have hs' : j < (calcSlotsLoop (cur + p.duration) rest).length := by
        simpa [calcSlotsLoop] using hs
      have hstep : ((calcSlotsLoop cur (p :: rest)).get ⟨j + 1, hs⟩) =
          ((calcSlotsLoop (cur + p.duration) rest).get ⟨j, hs'⟩) := rfl
      rw [hstep, ih (cur + p.duration) j hi' hs']
      rfl

lemma calcSlotsLoop_mem_start (sched : List ScheduleItem) :
    ∀ (cur : Nat) (sl : Slot), sl ∈ calcSlotsLoop cur sched →
      ∃ pre, sl.start = cur + pre ∧ pre ≤ (sched.map ScheduleItem.duration).sum := by
  induction sched with
  | nil => intro cur sl h; simp [calcSlotsLoop] at h
  | cons p rest ih =>
    intro cur sl h
    rw [calcSlotsLoop, List.mem_cons] at h
    rcases h with h | h
    · exact ⟨0, by simp [h], by simp⟩
    · obtain ⟨pre, hpre, hle⟩ := ih (cur + p.duration) sl h
      exact ⟨p.duration + pre, by omega, by simp; omega⟩

/-- C6: for every planned day and sequence of schedule items, the first
slot starts at `start_hour:00:00` on that day, each slot's end is its start
plus the item's `daily_minutes`, and consecutive slots are contiguous. -/
theorem claim_C6 (date : Nat) (schedule : List ScheduleItem) (start_hour : Nat) :
    (∀ h : 0 < (calculate_time_slots date schedule start_hour).length,
      ((calculate_time_slots date schedule start_hour).get ⟨0, h⟩).start =
        date * 1440 + start_hour * 60) ∧
    (∀ (i : Nat) (hi : i < schedule.length)
        (hs : i < (calculate_time_slots date schedule start_hour).length)
        (m : Nat), (schedule.get ⟨i, hi⟩).daily_minutes = some m →
      ((calculate_time_slots date schedule start_hour).get ⟨i, hs⟩).stop =
        ((calculate_time_slots date schedule start_hour).get ⟨i, hs⟩).start + m) ∧
    (∀ (i : Nat) (h1 : i + 1 < (calculate_time_slots date schedule start_hour).length)
        (h0 : i < (calculate_time_slots date schedule start_hour).length),
      ((calculate_time_slots date schedule start_hour).get ⟨i + 1, h1⟩).start =
        ((calculate_time_slots date schedule start_hour).get ⟨i, h0⟩).stop) := by
  refine ⟨?_, ?_, ?_⟩
  · intro h
    simp only [calculate_time_slots]; rw [calcSlotsLoop_get_start]
    simp
  · intro i hi hs m hm
    simp only [calculate_time_slots] at hs ⊢
    rw [calcSlotsLoop_get_stop schedule _ i hi hs]
    unfold ScheduleItem.duration
    rw [hm]
    rfl
  · intro i h1 h0
    simp only [calculate_time_slots] at h1 h0 ⊢
    have hi : i < schedule.length := by
      have := calcSlotsLoop_length schedule (date * 1440 + start_hour * 60)
      omega
    rw [calcSlotsLoop_get_start, calcSlotsLoop_get_stop schedule _ i hi h0,
        calcSlotsLoop_get_start]
    have hlt : i < (schedule.map ScheduleItem.duration).length := by simpa using hi
    rw [List.sum_take_succ _ i hlt]
    simp [ScheduleItem.duration, Nat.add_assoc]

/-- Witness for C6 at a concrete two-item schedule. -/
theorem claim_C6_witness :
    ((calculate_time_slots 0 [⟨"P1", none, some 30, none⟩,
        ⟨"P2", none, some 45, none⟩] 9).get ⟨1, by decide⟩).start =
      ((calculate_time_slots 0 [⟨"P1", none, some 30, none⟩,
        ⟨"P2", none, some 45, none⟩] 9).get ⟨0, by decide⟩).stop :=
  (claim_C6 0 [⟨"P1", none, some 30, none⟩, ⟨"P2", none, some 45, none⟩] 9).2.2
    0 (by decide) (by decide)

/-- C10: a schedule item without a `daily_minutes` value yields a slot of
the default duration 60 minutes. -/
theorem claim_C10 (date : Nat) (schedule : List ScheduleItem) (start_hour : Nat)
    (i : Nat) (hi : i < schedule.length)
    (hs : i < (calculate_time_slots date schedule start_hour).length)
    (hnone : (schedule.get ⟨i, hi⟩).daily_minutes = none) :
    ((calculate_time_slots date schedule start_hour).get ⟨i, hs⟩).stop =
      ((calculate_time_slots date schedule start_hour).get ⟨i, hs⟩).start + 60 := by
  simp only [calculate_time_slots] at hs ⊢
  rw [calcSlotsLoop_get_stop schedule _ i hi hs]
  unfold ScheduleItem.duration
  rw [hnone]
  rfl

/-- Witness for C10: a one-item schedule lacking `daily_minutes`. -/
theorem claim_C10_witness :
    ((calculate_time_slots 0 [⟨"P1", none, none, none⟩] 9).get ⟨0, by decide⟩).stop =
      ((calculate_time_slots 0 [⟨"P1", none, none, none⟩] 9).get ⟨0, by decide⟩).start + 60 :=
  claim_C10 0 [⟨"P1", none, none, none⟩] 9 0 (by decide) (by decide) rfl

/-- C8: `generate()` on an empty template set returns the fixed fallback
string and leaves the state untouched (it is a total function, so it can
neither fail nor block). -/
theorem claim_C8 (s : GenState) (r : GenRand) (h : s.templates = []) :
    generate s r = { description := "general work and updates",
                     chosen := none, state := s } := by
  simp [generate, h]

/-- Witness for C8 on a concrete empty pool. -/
theorem claim_C8_witness :
    (GenState.init (some [])).templates = [] ∧
    generate (GenState.init (some [])) ⟨0, ⟨false, [], false, []⟩⟩ =
      { description := "general work and updates", chosen := none,
        state := GenState.init (some []) } :=
  ⟨rfl, claim_C8 _ _ rfl⟩

/-- C9: with the history flag enabled but an empty history fetch, the
generator is built directly from the slot's own templates, exactly as when
history analysis is disabled. -/
theorem claim_C9 (slot : Slot) (hist : List HistoryEntry) :
    selectGenerator true [] slot = GenState.init (some slot.templates) ∧
    selectGenerator false hist slot = GenState.init (some slot.templates) := by
  constructor
  · simp [selectGenerator]
  · simp [selectGenerator]

/-! ## The duplicate-detection index (C5) -/

lemma indexStep_contains (m : String → List String) (e : RecordedEntry) (p d : String) :
    indexContains (indexStep m e) p d = true ↔
      indexContains m p d = true ∨
      (e.projectId = some p ∧ p ≠ "" ∧ e.startStr ≠ "" ∧ e.startStr.take 10 = d) := by
  unfold indexStep indexContains
  cases hpid : e.projectId with
  | none => simp
  | some pid =>
    rcases eq_or_ne pid "" with hempty | hempty
    · subst hempty
      simp
      rintro rfl h
      exact absurd rfl h
    · rcases eq_or_ne e.startStr "" with hs | hs
      · simp [hs, hempty]
      · rcases eq_or_ne p pid with hp | hp
        · subst hp
          simp [hempty, hs]
          constructor
          · rintro (h | h)
            · exact Or.inr h.symm
            · exact Or.inl h
          · rintro (h | h)
            · exact Or.inr h
            · exact Or.inl h.symm
        · simp [hempty, hs, hp]
          intro hpp _ _
          exact absurd hpp.symm hp

lemma foldl_indexStep_contains (es : List RecordedEntry) :
    ∀ (m : String → List String) (p d : String),
      indexContains (es.foldl indexStep m) p d = true ↔
        indexContains m p d = true ∨
        ∃ e ∈ es, e.projectId = some p ∧ p ≠ "" ∧ e.startStr ≠ "" ∧
          e.startStr.take 10 = d := by
  induction es with
  | nil => intro m p d; simp
  | cons e rest ih =>
    intro m p d
    rw [List.foldl_cons, ih, indexStep_contains]
    simp only [List.mem_cons]
    constructor
    · rintro ((h | h) | ⟨e', he', hP⟩)
      · exact Or.inl h
      · exact Or.inr ⟨e, Or.inl rfl, h⟩
      · exact Or.inr ⟨e', Or.inr he', hP⟩
    · rintro (h | ⟨e', (rfl | he'), hP⟩)
      · exact Or.inl (Or.inl h)
      · exact Or.inl (Or.inr hP)
      · exact Or.inr ⟨e', he', hP⟩

/-- C5: `contains(p, d)` on the built index is true iff some source entry
has project id `p` and a start timestamp whose first 10 characters equal
`d`. An entry "lacking" a project identifier or start timestamp — absent
field, or the empty string, which Python's falsy test treats identically —
is silently excluded, and a lookup on an absent project key returns `false`
(the dictionary model yields the empty set for absent keys) rather than
raising. -/
theorem claim_C5 (entries : List RecordedEntry) (p d : String) :
    indexContains (buildExistingIndex entries) p d = true ↔
      ∃ e ∈ entries, e.projectId = some p ∧ p ≠ "" ∧ e.startStr ≠ "" ∧
        e.startStr.take 10 = d := by
  unfold buildExistingIndex
  rw [foldl_indexStep_contains]
  simp [indexContains]

/-! ## Weekday selection (C7) -/

lemma weekDatesLoop_mem (fuel : Nat) :
    ∀ (cur d : Nat), d ∈ weekDatesLoop cur fuel →
      weekday d < 5 ∧ cur ≤ d ∧ d < cur + fuel := by
  induction fuel with
  | zero => intro cur d h; simp [weekDatesLoop] at h
  | succ n ih =>
    intro cur d h
    rw [weekDatesLoop] at h
    by_cases hw : weekday cur < 5
    · rw [if_pos hw] at h
      rcases List.mem_cons.mp h with rfl | h
      · exact ⟨hw, le_refl _, by omega⟩
      · obtain ⟨h1, h2, h3⟩ := ih (cur + 1) d h
        exact ⟨h1, by omega, by omega⟩
    · rw [if_neg hw] at h
      obtain ⟨h1, h2, h3⟩ := ih (cur + 1) d h
      exact ⟨h1, by omega, by omega⟩

lemma weekDatesLoop_chain (fuel : Nat) :
    ∀ cur, List.Chain' (· < ·) (weekDatesLoop cur fuel) := by
  induction fuel with
  | zero => intro cur; simp [weekDatesLoop]
  | succ n ih =>
    intro cur
    rw [weekDatesLoop]
    by_cases hw : weekday cur < 5
    · rw [if_pos hw, List.chain'_cons']
      refine ⟨?_, ih (cur + 1)⟩
      intro y hy
      have hmem : y ∈ weekDatesLoop (cur + 1) n := by
        cases hl : weekDatesLoop (cur + 1) n with
        | nil => rw [hl] at hy; simp at hy
        | cons a t =>
          rw [hl] at hy
          simp at hy
          subst hy
          exact List.mem_cons_self a t
      have := weekDatesLoop_mem n (cur + 1) y hmem
      omega
    · rw [if_neg hw]
      exact ih (cur + 1)

lemma weekDatesLoop_mem_of (fuel : Nat) :
    ∀ (cur k : Nat), k < fuel → weekday (cur + k) < 5 →
      cur + k ∈ weekDatesLoop cur fuel := by
  induction fuel with
  | zero => intro cur k hk hw; omega
  | succ n ih =>
    intro cur k hk hw
    rw [weekDatesLoop]
    cases k with
    | zero =>
      have hw' : weekday cur < 5 := by simpa using hw
      rw [if_pos hw']
      simp
    | succ j =>
      have hstep : cur + (j + 1) = (cur + 1) + j := by omega
      rw [hstep] at hw ⊢
      have hmem := ih (cur + 1) j (by omega) hw
      by_cases hwc : weekday cur < 5
      · rw [if_pos hwc]
        exact List.mem_cons_of_mem _ hmem
      · rw [if_neg hwc]
        exact hmem

/-- C7, amended: the planner selects only weekday dates (Mon–Fri), within
the inclusive range, in increasing calendar order, and both endpoints are
selected whenever they are eligible weekdays; and — provided the day's
schedule does not extend past midnight (`start_hour * 60` plus the total
scheduled minutes staying below 1440) — every planned slot's start falls on
a selected weekday, never on a Saturday or Sunday. Without that proviso a
slot can spill into the following calendar day (see the counterexample). -/
theorem claim_C7 (s e : Nat) (schedule : List ScheduleItem) (start_hour : Nat) :
    (∀ d ∈ get_week_dates s e, weekday d < 5 ∧ s ≤ d ∧ d ≤ e) ∧
    List.Chain' (· < ·) (get_week_dates s e) ∧
    (s ≤ e → weekday s < 5 → s ∈ get_week_dates s e) ∧
    (s ≤ e → weekday e < 5 → e ∈ get_week_dates s e) ∧
    (start_hour * 60 + (schedule.map ScheduleItem.duration).sum < 1440 →
      ∀ sl ∈ planSlots s e schedule start_hour, weekdayAt sl.start < 5) := by
  refine ⟨?_, ?_, ?_, ?_, ?_⟩
  · intro d hd
    obtain ⟨h1, h2, h3⟩ := weekDatesLoop_mem (e + 1 - s) s d hd
    refine ⟨h1, h2, ?_⟩
    rcases le_or_lt s e with hse | hse
    · omega
    · exfalso
      have hz : e + 1 - s = 0 := by omega
      rw [get_week_dates, hz] at hd
      simp [weekDatesLoop] at hd
  · exact weekDatesLoop_chain _ s
  · intro hse hw
    have := weekDatesLoop_mem_of (e + 1 - s) s 0 (by omega) (by simpa using hw)
    simpa using this
  · intro hse hw
    have heq : s + (e - s) = e := by omega
    have := weekDatesLoop_mem_of (e + 1 - s) s (e - s) (by omega)
      (by rw [heq]; exact hw)
    rw [heq] at this
    exact this
  · intro hbound sl hsl
    rw [planSlots, List.mem_flatMap] at hsl
    obtain ⟨d, hd, hslot⟩ := hsl
    obtain ⟨hw, _, _⟩ := weekDatesLoop_mem (e + 1 - s) s d hd
    simp only [calculate_time_slots] at hslot
    obtain ⟨pre, hstart, hle⟩ := calcSlotsLoop_mem_start schedule _ sl hslot
    have hday : sl.start / 1440 = d := by omega
    simp only [weekdayAt]
    rw [hday]
    exact hw

/-- Witness for C7 (amended) on the default Monday-to-Friday week, days
4–8 of the calendar (day 4 is a Monday). -/
theorem claim_C7_witness :
    4 ≤ 8 ∧ weekday 4 < 5 ∧ 4 ∈ get_week_dates 4 8 :=
  ⟨by decide, by decide,
    (claim_C7 4 8 [⟨"P1", none, some 60, none⟩] 9).2.2.1 (by decide) (by decide)⟩

/-- Counterexample to C7 as stated: the range consists of the single day 1,
a Friday (`weekday 1 = 4`), yet with `day_start_hour = 23` and two 60-minute
items the second slot starts at minute 2880 — midnight of day 2, a Saturday.
The planned output therefore contains a slot whose start falls on a
Saturday even though only weekday dates were selected. -/
theorem claim_C7_counterexample :
    weekday 1 = 4 ∧
    ((planSlots 1 1 [⟨"A", none, some 60, none⟩, ⟨"B", none, some 60, none⟩] 23).any
      (fun sl => 5 ≤ weekdayAt sl.start)) = true := by
  constructor
  · rfl
  · rfl

/-! ## Repeated `generate()` calls on one pool instance (C4) -/

/-- A sequence of `generate()` calls on one pool instance, driven by a tape
of random draws: returns the list of selected templates (the emission
history, `none` for empty-pool calls) and the final state. -/
def genRun (s : GenState) : List GenRand → List (Option String) × GenState
  | [] => ([], s)
  | r :: rs =>
    let g := generate s r
    let p := genRun g.state rs
    (g.chosen :: p.1, p.2)

lemma generate_templates (s : GenState) (r : GenRand) :
    (generate s r).state.templates = s.templates := by
  unfold generate
  split <;> rfl

lemma poolOf_snd (s : GenState) :
    (poolOf s).2 = [] ∨ (poolOf s).2 = s.used_recently := by
  unfold poolOf
  split <;> simp

lemma pushRecent_len (used : List String) (c : String) (h : used.length ≤ 3) :
    (pushRecent used c).length ≤ 3 := by
  unfold pushRecent
  split_ifs with hl
  · simp
    omega
  · simp at hl ⊢
    omega

lemma pushRecent_suffix (used : List String) (c : String) (pre : List String)
    (h : used <:+ pre) : pushRecent used c <:+ pre ++ [c] := by
  obtain ⟨u, hu⟩ := h
  have happ : used ++ [c] <:+ pre ++ [c] := ⟨u, by rw [← hu, List.append_assoc]⟩
  unfold pushRecent
  split_ifs
  · exact (List.tail_suffix _).trans happ
  · exact happ

lemma mem_pushRecent (used : List String) (c : String) : c ∈ pushRecent used c := by
  unfold pushRecent
  split_ifs with hl
  · cases used with
    | nil => simp at hl
    | cons a t => simp
  · simp

lemma generate_used_len (s : GenState) (r : GenRand)
    (h : s.used_recently.length ≤ 3) :
    (generate s r).state.used_recently.length ≤ 3 := by
  unfold generate
  split
  · exact h
  · rcases poolOf_snd s with hp | hp
    · rw [hp]
      show (pushRecent [] (chosenOf s r.pick)).length ≤ 3
      apply pushRecent_len
      simp
    · rw [hp]
      show (pushRecent s.used_recently (chosenOf s r.pick)).length ≤ 3
      exact pushRecent_len _ _ h

lemma generate_used_suffix (s : GenState) (r : GenRand) (pre : List String)
    (h : s.used_recently <:+ pre) :
    (generate s r).state.used_recently <:+ pre ++ (generate s r).chosen.toList := by
  unfold generate
  split
  · simpa using h
  · simp only [Option.toList_some]
    rcases poolOf_snd s with hp | hp <;> rw [hp]
    · exact pushRecent_suffix [] _ pre List.nil_suffix
    · exact pushRecent_suffix _ _ pre h

lemma availableOf_ne_nil (s : GenState) (hT : 3 < s.templates.dedup.length)
    (hlen : s.used_recently.length ≤ 3) : (availableOf s).isEmpty = false := by
  rw [List.isEmpty_eq_false_iff_exists_mem]
  by_contra hno
  push_neg at hno
  have hsub : s.templates ⊆ s.used_recently := by
    intro t ht
    by_contra hmem
    exact hno t (List.mem_filter.mpr ⟨ht, by simpa using hmem⟩)
  have h1 : s.templates.dedup.length = s.templates.toFinset.card :=
    (List.card_toFinset _).symm
  have h2 : s.templates.toFinset ⊆ s.used_recently.toFinset := by
    intro a ha
    rw [List.mem_toFinset] at ha ⊢
    exact hsub ha
  have h3 := Finset.card_le_card h2
  have h4 := s.used_recently.toFinset_card_le
  omega

lemma chosenOf_spec (s : GenState) (pick : Nat)
    (hT : 3 < s.templates.dedup.length) (hlen : s.used_recently.length ≤ 3) :
    chosenOf s pick ∉ s.used_recently ∧ (poolOf s).2 = s.used_recently := by
  have hav := availableOf_ne_nil s hT hlen
  have hpool : poolOf s = (availableOf s, s.used_recently) := by
    unfold poolOf
    rw [hav]
    simp
  have hne : availableOf s ≠ [] := by
    intro hnil
    rw [hnil] at hav
    simp at hav
  have hpos : 0 < (availableOf s).length := List.length_pos.mpr hne
  have hin : pick % (availableOf s).length < (availableOf s).length :=
    Nat.mod_lt _ hpos
  have hmem : chosenOf s pick ∈ availableOf s := by
    unfold chosenOf
    rw [hpool]
    simp only []
    rw [List.getD_eq_getElem _ _ hin]
    exact List.getElem_mem _
  have := List.mem_filter.mp hmem
  refine ⟨by simpa using this.2, by rw [hpool]⟩

lemma generate_chosen_spec (s : GenState) (r : GenRand)
    (hT : 3 < s.templates.dedup.length) (hlen : s.used_recently.length ≤ 3) :
    (generate s r).chosen = some (chosenOf s r.pick) ∧
    chosenOf s r.pick ∉ s.used_recently ∧
    chosenOf s r.pick ∈ (generate s r).state.used_recently := by
  have hne : s.templates.isEmpty = false := by
    rw [List.isEmpty_eq_false_iff_exists_mem]
    have : s.templates.dedup ≠ [] := by
      intro h
      rw [h] at hT
      simp at hT
    obtain ⟨t, ht⟩ := List.exists_mem_of_ne_nil _ this
    exact ⟨t, (List.mem_dedup.mp ht)⟩
  obtain ⟨hnotin, hpool2⟩ := chosenOf_spec s r.pick hT hlen
  unfold generate
  rw [hne, if_neg Bool.false_ne_true]
  exact ⟨rfl, hnotin, mem_pushRecent _ _⟩

lemma genRun_templates (rs : List GenRand) :
    ∀ s : GenState, (genRun s rs).2.templates = s.templates := by
  induction rs with
  | nil => intro s; rfl
  | cons r rs ih =>
    intro s
    show (genRun (generate s r).state rs).2.templates = s.templates
    rw [ih, generate_templates]

lemma genRun_used_len (rs : List GenRand) :
    ∀ s : GenState, s.used_recently.length ≤ 3 →
      (genRun s rs).2.used_recently.length ≤ 3 := by
  induction rs with
  | nil => intro s h; exact h
  | cons r rs ih =>
    intro s h
    exact ih _ (generate_used_len s r h)

lemma genRun_suffix (rs : List GenRand) :
    ∀ (s : GenState) (pre : List String), s.used_recently <:+ pre →
      (genRun s rs).2.used_recently <:+ pre ++ ((genRun s rs).1.filterMap id) := by
  induction rs with
  | nil => intro s pre h; simpa [genRun] using h
  | cons r rs ih =>
    intro s pre h
    have hstep := generate_used_suffix s r pre h
    have hrec := ih (generate s r).state (pre ++ (generate s r).chosen.toList) hstep
    show (genRun (generate s r).state rs).2.used_recently <:+
      pre ++ (((generate s r).chosen :: (genRun (generate s r).state rs).1).filterMap id)
    cases hc : (generate s r).chosen with
    | none =>
      rw [hc] at hrec
      simpa [List.filterMap_cons] using hrec
    | some c =>
      rw [hc] at hrec
      simpa [List.filterMap_cons, List.append_assoc] using hrec

lemma genRun_chain (rs : List GenRand) :
    ∀ s : GenState, 3 < s.templates.dedup.length → s.used_recently.length ≤ 3 →
      List.Chain' (fun a b : Option String => a ≠ b) (genRun s rs).1 := by
  induction rs with
  | nil => intro s hT hlen; simp [genRun]
  | cons r rs ih =>
    intro s hT hlen
    have hT' : 3 < (generate s r).state.templates.dedup.length := by
      rw [generate_templates]
      exact hT
    have hlen' := generate_used_len s r hlen
    have hrw : (genRun s (r :: rs)).1 =
        (generate s r).chosen :: (genRun (generate s r).state rs).1 := rfl
    rw [hrw, List.chain'_cons']
    refine ⟨?_, ih _ hT' hlen'⟩
    intro y hy
    cases rs with
    | nil => simp [genRun] at hy
    | cons r2 rs2 =>
      have hy' : (generate (generate s r).state r2).chosen = y := by
        have hrw2 : (genRun (generate s r).state (r2 :: rs2)).1 =
            (generate (generate s r).state r2).chosen ::
              (genRun (generate (generate s r).state r2).state rs2).1 := rfl
        rw [hrw2] at hy
        simpa using hy
      rw [← hy']
      obtain ⟨hc1, _, hmem1⟩ := generate_chosen_spec s r hT hlen
      obtain ⟨hc2, hnot2, _⟩ := generate_chosen_spec (generate s r).state r2 hT' hlen'
      rw [hc1, hc2]
      intro heq
      have hcc : chosenOf s r.pick = chosenOf (generate s r).state r2.pick :=
        Option.some.inj heq
      rw [hcc] at hmem1
      exact hnot2 hmem1

/-- C4: on a pool with more than 3 distinct templates, no 4 consecutive
`generate()` calls select the same template (in fact consecutive selections
always differ), the recency buffer never exceeds capacity 3, and the buffer
is always a suffix of the emission history of this pool instance — it
contains only templates this instance emitted, in generation order. -/
theorem claim_C4 (T : List String) (rs : List GenRand)
    (hT : 3 < T.dedup.length) :
    (∀ i : Nat, i + 3 < (genRun (GenState.init (some T)) rs).1.length →
      ¬((genRun (GenState.init (some T)) rs).1.getD i none =
          (genRun (GenState.init (some T)) rs).1.getD (i + 1) none ∧
        (genRun (GenState.init (some T)) rs).1.getD (i + 1) none =
          (genRun (GenState.init (some T)) rs).1.getD (i + 2) none ∧
        (genRun (GenState.init (some T)) rs).1.getD (i + 2) none =
          (genRun (GenState.init (some T)) rs).1.getD (i + 3) none)) ∧
    (genRun (GenState.init (some T)) rs).2.used_recently.length ≤ 3 ∧
    (genRun (GenState.init (some T)) rs).2.used_recently <:+
      ((genRun (GenState.init (some T)) rs).1.filterMap id) := by
  have hchain := genRun_chain rs (GenState.init (some T))
    (by simpa [GenState.init] using hT) (by simp [GenState.init])
  refine ⟨?_, ?_, ?_⟩
  · intro i hi habc
    have hadj := List.chain'_iff_get.mp hchain i (by omega)
    have h1 : i < (genRun (GenState.init (some T)) rs).1.length := by omega
    have h2 : i + 1 < (genRun (GenState.init (some T)) rs).1.length := by omega
    rw [List.getD_eq_getElem _ _ h1, List.getD_eq_getElem _ _ h2] at habc
    exact hadj (by simpa using habc.1)
  · exact genRun_used_len rs _ (by simp [GenState.init])
  · have := genRun_suffix rs (GenState.init (some T)) [] (by simp [GenState.init])
    simpa using this

/-- Witness for C4 on a concrete 4-template pool and a 2-call tape. -/
theorem claim_C4_witness :
    3 < (["a", "b", "c", "d"] : List String).dedup.length ∧
    ((∀ i : Nat, i + 3 < (genRun (GenState.init (some ["a", "b", "c", "d"]))
        [⟨0, ⟨false, [], false, []⟩⟩, ⟨0, ⟨false, [], false, []⟩⟩]).1.length →
      ¬((genRun (GenState.init (some ["a", "b", "c", "d"]))
          [⟨0, ⟨false, [], false, []⟩⟩, ⟨0, ⟨false, [], false, []⟩⟩]).1.getD i none =
          (genRun (GenState.init (some ["a", "b", "c", "d"]))
          [⟨0, ⟨false, [], false, []⟩⟩, ⟨0, ⟨false, [], false, []⟩⟩]).1.getD (i + 1) none ∧
        (genRun (GenState.init (some ["a", "b", "c", "d"]))
          [⟨0, ⟨false, [], false, []⟩⟩, ⟨0, ⟨false, [], false, []⟩⟩]).1.getD (i + 1) none =
          (genRun (GenState.init (some ["a", "b", "c", "d"]))
          [⟨0, ⟨false, [], false, []⟩⟩, ⟨0, ⟨false, [], false, []⟩⟩]).1.getD (i + 2) none ∧
        (genRun (GenState.init (some ["a", "b", "c", "d"]))
          [⟨0, ⟨false, [], false, []⟩⟩, ⟨0, ⟨false, [], false, []⟩⟩]).1.getD (i + 2) none =
          (genRun (GenState.init (some ["a", "b", "c", "d"]))
          [⟨0, ⟨false, [], false, []⟩⟩, ⟨0, ⟨false, [], false, []⟩⟩]).1.getD (i + 3) none)) ∧
    (genRun (GenState.init (some ["a", "b", "c", "d"]))
      [⟨0, ⟨false, [], false, []⟩⟩, ⟨0, ⟨false, [], false, []⟩⟩]).2.used_recently.length ≤ 3 ∧
    (genRun (GenState.init (some ["a", "b", "c", "d"]))
      [⟨0, ⟨false, [], false, []⟩⟩, ⟨0, ⟨false, [], false, []⟩⟩]).2.used_recently <:+
      ((genRun (GenState.init (some ["a", "b", "c", "d"]))
        [⟨0, ⟨false, [], false, []⟩⟩, ⟨0, ⟨false, [], false, []⟩⟩]).1.filterMap id)) :=
  ⟨by decide, claim_C4 ["a", "b", "c", "d"]
    [⟨0, ⟨false, [], false, []⟩⟩, ⟨0, ⟨false, [], false, []⟩⟩] (by decide)⟩

/-! ## The drop perturbation of the variation transform (C3) -/

lemma applyIdx_perm_eraseIdx (E : List String) (idxs : List Nat)
    (hpos : 0 < E.length) (h : ValidSample idxs E.length) :
    ∃ j, j < E.length ∧ (applyIdx E idxs).Perm (E.eraseIdx j) := by
  obtain ⟨hnodup, hlen, hbound⟩ := h
  have hsub : idxs.toFinset ⊆ Finset.range E.length := by
    intro a ha
    rw [List.mem_toFinset] at ha
    exact Finset.mem_range.mpr (hbound a ha)
  have hcard : idxs.toFinset.card = E.length - 1 := by
    rw [List.toFinset_card_of_nodup hnodup, hlen]
  have hne : (Finset.range E.length \ idxs.toFinset).Nonempty := by
    rw [← Finset.card_pos, Finset.card_sdiff hsub, Finset.card_range, hcard]
    omega
  obtain ⟨j, hj⟩ := hne
  rw [Finset.mem_sdiff, Finset.mem_range] at hj
  obtain ⟨hjlt, hjnot⟩ := hj
  have hjnotmem : j ∉ idxs := fun hm => hjnot (List.mem_toFinset.mpr hm)
  refine ⟨j, hjlt, ?_⟩
  have hnodup2 : (j :: idxs).Nodup := List.nodup_cons.mpr ⟨hjnotmem, hnodup⟩
  have hinsert : insert j idxs.toFinset = Finset.range E.length := by
    apply Finset.eq_of_subset_of_card_le
    · intro a ha
      rcases Finset.mem_insert.mp ha with rfl | ha
      · exact Finset.mem_range.mpr hjlt
      · exact hsub ha
    · rw [Finset.card_insert_of_not_mem hjnot, hcard, Finset.card_range]
      omega
  have hmemiff : ∀ a, a ∈ j :: idxs ↔ a ∈ List.range E.length := by
    intro a
    constructor
    · intro ha
      rcases List.mem_cons.mp ha with rfl | ha
      · exact List.mem_range.mpr hjlt
      · exact List.mem_range.mpr (hbound a ha)
    · intro ha
      have ha2 : a ∈ insert j idxs.toFinset := by
        rw [hinsert, Finset.mem_range]
        exact List.mem_range.mp ha
      rcases Finset.mem_insert.mp ha2 with rfl | hmm
      · exact List.mem_cons_self _ _
      · exact List.mem_cons_of_mem _ (List.mem_toFinset.mp hmm)
  have hperm : (j :: idxs).Perm (List.range E.length) :=
    (List.perm_ext_iff_of_nodup hnodup2 (List.nodup_range _)).mpr hmemiff
  have hmap := hperm.map (fun i => E.getD i "")
  have hrange : (List.range E.length).map (fun i => E.getD i "") = E := by
    apply List.ext_getElem
    · simp
    · intro k h1 h2
      simp only [List.getElem_map, List.getElem_range]
      exact List.getD_eq_getElem E "" h2
  have hsplit : E.Perm (E.getD j "" :: E.eraseIdx j) := by
    have h1 : E.take j ++ E.drop j = E := List.take_append_drop j E
    have h2 : E.drop j = E.getD j "" :: E.drop (j + 1) := by
      rw [List.drop_eq_getElem_cons hjlt, List.getD_eq_getElem _ _ hjlt]
    have h3 : E.eraseIdx j = E.take j ++ E.drop (j + 1) :=
      List.eraseIdx_eq_take_drop_succ E j
    rw [h3]
    conv_lhs => rw [← h1, h2]
    exact List.perm_middle
  have hmap' : (E.getD j "" :: applyIdx E idxs).Perm E := by
    have hc : (j :: idxs).map (fun i => E.getD i "") =
        E.getD j "" :: applyIdx E idxs := rfl
    rw [hrange] at hmap
    rw [← hc]
    exact hmap
  exact (hmap'.trans hsplit).cons_inv

/-- C3, amended: when the drop perturbation fires on more than two phrases,
the returned description is the phrases entering the drop step with exactly
one phrase, chosen at random, removed — but the survivors are rejoined in
`random.sample`'s random selection order, which need not preserve their
original relative order (see the counterexample). -/
theorem claim_C3 (template : String) (vr : VariationRand)
    (h2 : 2 < (shuffleStep (splitPhrases template) vr).length)
    (hd : vr.dropRoll = true)
    (hs : ValidSample vr.sample (shuffleStep (splitPhrases template) vr).length) :
    create_variation template vr =
      String.intercalate ", "
        (applyIdx (shuffleStep (splitPhrases template) vr) vr.sample) ∧
    ∃ j, j < (shuffleStep (splitPhrases template) vr).length ∧
      (applyIdx (shuffleStep (splitPhrases template) vr) vr.sample).Perm
        ((shuffleStep (splitPhrases template) vr).eraseIdx j) := by
  constructor
  · unfold create_variation dropStep
    rw [if_pos ⟨h2, hd⟩]
  · exact applyIdx_perm_eraseIdx _ _ (by omega) hs

/-- Witness for C3 (amended) at the template `"a, b, c"` with sample `[2, 0]`. -/
theorem claim_C3_witness :
    (2 < (shuffleStep (splitPhrases "a, b, c") ⟨false, [], true, [2, 0]⟩).length ∧
      (true : Bool) = true ∧
      ValidSample [2, 0]
        (shuffleStep (splitPhrases "a, b, c") ⟨false, [], true, [2, 0]⟩).length) ∧
    (create_variation "a, b, c" ⟨false, [], true, [2, 0]⟩ =
      String.intercalate ", "
        (applyIdx (shuffleStep (splitPhrases "a, b, c") ⟨false, [], true, [2, 0]⟩)
          [2, 0]) ∧
    ∃ j, j < (shuffleStep (splitPhrases "a, b, c") ⟨false, [], true, [2, 0]⟩).length ∧
      (applyIdx (shuffleStep (splitPhrases "a, b, c") ⟨false, [], true, [2, 0]⟩)
        [2, 0]).Perm
        ((shuffleStep (splitPhrases "a, b, c") ⟨false, [], true, [2, 0]⟩).eraseIdx j)) :=
  ⟨⟨by decide, rfl, ⟨by decide, by decide, by decide⟩⟩,
    claim_C3 "a, b, c" ⟨false, [], true, [2, 0]⟩ (by decide) rfl
      ⟨by decide, by decide, by decide⟩⟩

/-- Counterexample to C3 as stated: on the template `"a, b, c"` (three
trimmed phrases) with the drop firing and `random.sample` selecting indices
`[2, 0]`, the code returns `"c, a"`, which is not any of the results
obtainable by removing one phrase while keeping the survivors in their
original relative order (`"b, c"`, `"a, c"`, `"a, b"`). -/
theorem claim_C3_counterexample :
    2 < (splitPhrases "a, b, c").length ∧
    (⟨false, [], true, [2, 0]⟩ : VariationRand).dropRoll = true ∧
    ValidSample [2, 0] (splitPhrases "a, b, c").length ∧
    shuffleStep (splitPhrases "a, b, c") ⟨false, [], true, [2, 0]⟩ =
      splitPhrases "a, b, c" ∧
    create_variation "a, b, c" ⟨false, [], true, [2, 0]⟩ = "c, a" ∧
    (((List.range (splitPhrases "a, b, c").length).map
        (fun j => String.intercalate ", " ((splitPhrases "a, b, c").eraseIdx j))).contains
      (create_variation "a, b, c" ⟨false, [], true, [2, 0]⟩)) = false := by
  refine ⟨by decide, rfl, ⟨by decide, by decide, by decide⟩, by decide, by decide, by decide⟩

/-! ## The per-slot run loop (C1, C2) -/

/-- The generator state a slot's description was drawn from, when the slot
generated one, has an empty recency buffer. -/
def FreshDraw (rec : SlotRecord) : Prop :=
  ∀ g : GenState, rec.drawState = some g → g.used_recently = []

lemma selectGenerator_used (a : Bool) (h : List HistoryEntry) (slot : Slot) :
    (selectGenerator a h slot).used_recently = [] := by
  unfold selectGenerator
  split_ifs <;> rfl

/-- Characterization of one slot iteration: exactly one trace record is
appended; the created/skipped counters grow precisely when the record's
outcome is Created/Skipped; no Previewed outcome occurs outside dry-run
mode; and any recorded draw state is the freshly built generator. -/
lemma processSlot_spec (args : RunArgs) (d : Nat) (slot : Slot) (st : RunState) :
    ∃ r : SlotRecord,
      (processSlot args d slot st).trace = st.trace ++ [r] ∧
      (processSlot args d slot st).entries_created =
        st.entries_created + (if r.outcome = .created then 1 else 0) ∧
      (processSlot args d slot st).entries_skipped =
        st.entries_skipped + (if r.outcome = .skipped then 1 else 0) ∧
      (args.dry_run = false → r.outcome ≠ .previewed) ∧
      (r.drawState = none ∨
        r.drawState =
          some (selectGenerator args.analyze_history args.history_entries slot)) := by
  simp only [processSlot]
  split_ifs with h1 h2 h3
  · exact ⟨_, rfl, by simp, by simp, fun _ => by simp, Or.inl rfl⟩
  · refine ⟨_, rfl, by simp, by simp, ?_, Or.inr rfl⟩
    intro hd
    rw [hd] at h2
    cases h2
  · exact ⟨_, rfl, by simp, by simp, fun _ => by simp, Or.inr rfl⟩
  · exact ⟨_, rfl, by simp, by simp, fun _ => by simp, Or.inr rfl⟩

lemma foldSlots_trace_mem (args : RunArgs) (d : Nat) (slots : List Slot) :
    ∀ (st : RunState) (rec : SlotRecord),
      rec ∈ (slots.foldl (fun st slot => processSlot args d slot st) st).trace →
      rec ∈ st.trace ∨ FreshDraw rec := by
  induction slots with
  | nil => intro st rec h; exact Or.inl h
  | cons sl rest ih =>
    intro st rec h
    rw [List.foldl_cons] at h
    rcases ih (processSlot args d sl st) rec h with h2 | h2
    · obtain ⟨r, hr, _, _, _, hdr⟩ := processSlot_spec args d sl st
      rw [hr] at h2
      rcases List.mem_append.mp h2 with h3 | h3
      · exact Or.inl h3
      · right
        have hrr : rec = r := by simpa using h3
        subst hrr
        intro g hg
        rcases hdr with hnone | hsome
        · rw [hnone] at hg
          cases hg
        · rw [hsome] at hg
          rw [← Option.some.inj hg]
          exact selectGenerator_used _ _ _
    · exact Or.inr h2

lemma runScheduler_fresh (args : RunArgs) (s e : Nat) (gt : List GenRand)
    (ct : List Bool) :
    ∀ rec ∈ (runScheduler args s e gt ct).trace, FreshDraw rec := by
  unfold runScheduler
  generalize get_week_dates s e = dates
  suffices hgen : ∀ (st : RunState), (∀ rec ∈ st.trace, FreshDraw rec) →
      ∀ rec ∈ (dates.foldl (processDay args) st).trace, FreshDraw rec by
    exact hgen _ (by intro rec h; simp at h)
  induction dates with
  | nil => intro st hst rec hrec; exact hst rec hrec
  | cons dd rest ih =>
    intro st hst rec hrec
    rw [List.foldl_cons] at hrec
    refine ih _ ?_ rec hrec
    intro rec2 hrec2
    unfold processDay at hrec2
    rcases foldSlots_trace_mem args dd _ st rec2 hrec2 with h | h
    · exact hst rec2 h
    · exact h

/-- C1, amended: a fresh `DescriptionGenerator` is constructed for every
slot, so no recency-buffer state crosses slot boundaries: whenever a slot
of any project draws its description, the pool it draws from has an empty
recency buffer — a template emitted for an earlier slot of the same project
is never in it. -/
theorem claim_C1 (args : RunArgs) (s e : Nat) (gt : List GenRand) (ct : List Bool) :
    ∀ rec ∈ (runScheduler args s e gt ct).trace, FreshDraw rec :=
  runScheduler_fresh args s e gt ct

/-- Witness for C1 (amended) on a concrete two-day run. -/
theorem claim_C1_witness :
    FreshDraw ((runScheduler
      ⟨[⟨"P1", some "P", some 60, some ["t1", "t2", "t3", "t4"]⟩],
        9, true, false, [], fun _ => []⟩ 0 1
      [⟨0, ⟨false, [], false, []⟩⟩, ⟨0, ⟨false, [], false, []⟩⟩] []).trace.getD 1 default) :=
  claim_C1 ⟨[⟨"P1", some "P", some 60, some ["t1", "t2", "t3", "t4"]⟩],
      9, true, false, [], fun _ => []⟩ 0 1
    [⟨0, ⟨false, [], false, []⟩⟩, ⟨0, ⟨false, [], false, []⟩⟩] [] _ (by decide)

/-- Counterexample to C1 as stated: in a dry-run over two weekdays (days 0
and 1) with a single project `"P1"` holding four templates, the first slot
emits template `"t1"`, yet the second slot of the same project draws from a
pool whose recency buffer is empty — the pool instance is not shared across
slot boundaries, so `"t1"` is not in the buffer at the later draw. -/
theorem claim_C1_counterexample :
    ((runScheduler ⟨[⟨"P1", some "P", some 60, some ["t1", "t2", "t3", "t4"]⟩],
        9, true, false, [], fun _ => []⟩ 0 1
        [⟨0, ⟨false, [], false, []⟩⟩, ⟨0, ⟨false, [], false, []⟩⟩] []).trace.length = 2 ∧
      ((runScheduler ⟨[⟨"P1", some "P", some 60, some ["t1", "t2", "t3", "t4"]⟩],
        9, true, false, [], fun _ => []⟩ 0 1
        [⟨0, ⟨false, [], false, []⟩⟩, ⟨0, ⟨false, [], false, []⟩⟩] []).trace.getD 0
          default).project_id = "P1" ∧
      ((runScheduler ⟨[⟨"P1", some "P", some 60, some ["t1", "t2", "t3", "t4"]⟩],
        9, true, false, [], fun _ => []⟩ 0 1
        [⟨0, ⟨false, [], false, []⟩⟩, ⟨0, ⟨false, [], false, []⟩⟩] []).trace.getD 1
          default).project_id = "P1") ∧
    ((runScheduler ⟨[⟨"P1", some "P", some 60, some ["t1", "t2", "t3", "t4"]⟩],
        9, true, false, [], fun _ => []⟩ 0 1
        [⟨0, ⟨false, [], false, []⟩⟩, ⟨0, ⟨false, [], false, []⟩⟩] []).trace.getD 0
          default).chosen = some "t1" ∧
    (((runScheduler ⟨[⟨"P1", some "P", some 60, some ["t1", "t2", "t3", "t4"]⟩],
        9, true, false, [], fun _ => []⟩ 0 1
        [⟨0, ⟨false, [], false, []⟩⟩, ⟨0, ⟨false, [], false, []⟩⟩] []).trace.getD 1
          default).drawState.getD default).used_recently = [] := by
  refine ⟨⟨by decide, by decide, by decide⟩, by decide, by decide⟩

/-! ### Counters and the final summary (C2) -/

lemma countOutcome_append (o : Outcome) (t1 t2 : List SlotRecord) :
    countOutcome o (t1 ++ t2) = countOutcome o t1 + countOutcome o t2 := by
  simp [countOutcome, List.filter_append]

lemma countOutcome_singleton (o : Outcome) (r : SlotRecord) :
    countOutcome o [r] = if r.outcome = o then 1 else 0 := by
  unfold countOutcome
  rcases eq_or_ne r.outcome o with h | h
  · rw [if_pos h]
    simp [List.filter_cons, h]
  · rw [if_neg h]
    simp [List.filter_cons, h]

lemma countOutcome_total (tr : List SlotRecord) :
    countOutcome .skipped tr + countOutcome .previewed tr +
      countOutcome .created tr + countOutcome .failed tr = tr.length := by
  induction tr with
  | nil => rfl
  | cons r t ih =>
    simp only [countOutcome, List.filter_cons] at ih ⊢
    cases houtcome : r.outcome <;> simp [houtcome] <;> omega

/-- Loop invariant linking the counters of `main` to the outcome counts of
the trace, and recording that non-dry runs never produce previews. -/
def RunInv (args : RunArgs) (st : RunState) : Prop :=
  st.entries_created = countOutcome .created st.trace ∧
  st.entries_skipped = countOutcome .skipped st.trace ∧
  (args.dry_run = false → countOutcome .previewed st.trace = 0)

lemma processSlot_inv (args : RunArgs) (d : Nat) (slot : Slot) (st : RunState)
    (h : RunInv args st) : RunInv args (processSlot args d slot st) := by
  obtain ⟨r, htr, hcr, hsk, hpre, _⟩ := processSlot_spec args d slot st
  obtain ⟨h1, h2, h3⟩ := h
  refine ⟨?_, ?_, ?_⟩
  · rw [hcr, htr, countOutcome_append, h1, countOutcome_singleton]
  · rw [hsk, htr, countOutcome_append, h2, countOutcome_singleton]
  · intro hd
    rw [htr, countOutcome_append, h3 hd, countOutcome_singleton,
      if_neg (hpre hd)]

lemma processSlot_trace_len (args : RunArgs) (d : Nat) (slot : Slot)
    (st : RunState) :
    (processSlot args d slot st).trace.length = st.trace.length + 1 := by
  obtain ⟨r, htr, _⟩ := processSlot_spec args d slot st
  rw [htr]
  simp

lemma foldSlots_inv (args : RunArgs) (d : Nat) (slots : List Slot) :
    ∀ st : RunState, RunInv args st →
      RunInv args (slots.foldl (fun st slot => processSlot args d slot st) st) := by
  induction slots with
  | nil => intro st h; exact h
  | cons sl rest ih =>
    intro st h
    rw [List.foldl_cons]
    exact ih _ (processSlot_inv args d sl st h)

lemma foldSlots_trace_len (args : RunArgs) (d : Nat) (slots : List Slot) :
    ∀ st : RunState,
      (slots.foldl (fun st slot => processSlot args d slot st) st).trace.length =
        st.trace.length + slots.length := by
  induction slots with
  | nil => intro st; simp
  | cons sl rest ih =>
    intro st
    rw [List.foldl_cons, ih, processSlot_trace_len]
    simp
    omega

lemma processDay_inv (args : RunArgs) (st : RunState) (d : Nat)
    (h : RunInv args st) : RunInv args (processDay args st d) :=
  foldSlots_inv args d _ st h

lemma processDay_trace_len (args : RunArgs) (st : RunState) (d : Nat) :
    (processDay args st d).trace.length =
      st.trace.length + args.schedule.length := by
  unfold processDay
  rw [foldSlots_trace_len]
  congr 1
  simp only [calculate_time_slots]
  exact calcSlotsLoop_length _ _

lemma foldDays_inv (args : RunArgs) (dates : List Nat) :
    ∀ st : RunState, RunInv args st →
      RunInv args (dates.foldl (processDay args) st) := by
  induction dates with
  | nil => intro st h; exact h
  | cons dd rest ih =>
    intro st h
    rw [List.foldl_cons]
    exact ih _ (processDay_inv args st dd h)

lemma foldDays_trace_len (args : RunArgs) (dates : List Nat) :
    ∀ st : RunState,
      (dates.foldl (processDay args) st).trace.length =
        st.trace.length + dates.length * args.schedule.length := by
  induction dates with
  | nil => intro st; simp
  | cons dd rest ih =>
    intro st
    rw [List.foldl_cons, ih, processDay_trace_len]
    rw [List.length_cons, Nat.succ_mul]
    omega

/-- C2, amended: in a non-dry run every non-success create call is caught
and the run continues — every planned slot receives an outcome, and the
created, skipped and failed outcomes partition the slots — but no failure
counter is maintained: the printed final summary consists of the created
and skipped counts only, and does not reflect the number of failed slots
(see the counterexample). -/
theorem claim_C2 (args : RunArgs) (s e : Nat) (gt : List GenRand)
    (ct : List Bool) (hdry : args.dry_run = false) :
    printedSummary args s e (runScheduler args s e gt ct) =
      { createdLine := countOutcome .created (runScheduler args s e gt ct).trace
        skippedLine := countOutcome .skipped (runScheduler args s e gt ct).trace } ∧
    countOutcome .created (runScheduler args s e gt ct).trace +
      countOutcome .skipped (runScheduler args s e gt ct).trace +
      countOutcome .failed (runScheduler args s e gt ct).trace =
      (runScheduler args s e gt ct).trace.length ∧
    (runScheduler args s e gt ct).trace.length =
      (get_week_dates s e).length * args.schedule.length := by
  have hinv : RunInv args (runScheduler args s e gt ct) := by
    unfold runScheduler
    exact foldDays_inv args _ _ ⟨rfl, rfl, fun _ => rfl⟩
  obtain ⟨h1, h2, h3⟩ := hinv
  have hlen : (runScheduler args s e gt ct).trace.length =
      (get_week_dates s e).length * args.schedule.length := by
    unfold runScheduler
    rw [foldDays_trace_len]
    simp
  refine ⟨?_, ?_, hlen⟩
  · unfold printedSummary
    rw [hdry]
    simp only [Bool.false_eq_true, if_false]
    rw [h1, h2]
  · have htot := countOutcome_total (runScheduler args s e gt ct).trace
    rw [h3 hdry] at htot
    omega

/-- Witness for C2 (amended) on a concrete one-slot run whose create call
fails. -/
theorem claim_C2_witness :
    printedSummary ⟨[⟨"P1", none, none, none⟩], 9, false, false, [], fun _ => []⟩ 0 0
      (runScheduler ⟨[⟨"P1", none, none, none⟩], 9, false, false, [], fun _ => []⟩ 0 0
        [⟨0, ⟨false, [], false, []⟩⟩] [false]) =
      { createdLine := countOutcome .created
          (runScheduler ⟨[⟨"P1", none, none, none⟩], 9, false, false, [], fun _ => []⟩ 0 0
            [⟨0, ⟨false, [], false, []⟩⟩] [false]).trace
        skippedLine := countOutcome .skipped
          (runScheduler ⟨[⟨"P1", none, none, none⟩], 9, false, false, [], fun _ => []⟩ 0 0
            [⟨0, ⟨false, [], false, []⟩⟩] [false]).trace } ∧
    countOutcome .created
        (runScheduler ⟨[⟨"P1", none, none, none⟩], 9, false, false, [], fun _ => []⟩ 0 0
          [⟨0, ⟨false, [], false, []⟩⟩] [false]).trace +
      countOutcome .skipped
        (runScheduler ⟨[⟨"P1", none, none, none⟩], 9, false, false, [], fun _ => []⟩ 0 0
          [⟨0, ⟨false, [], false, []⟩⟩] [false]).trace +
      countOutcome .failed
        (runScheduler ⟨[⟨"P1", none, none, none⟩], 9, false, false, [], fun _ => []⟩ 0 0
          [⟨0, ⟨false, [], false, []⟩⟩] [false]).trace =
      (runScheduler ⟨[⟨"P1", none, none, none⟩], 9, false, false, [], fun _ => []⟩ 0 0
        [⟨0, ⟨false, [], false, []⟩⟩] [false]).trace.length ∧
    (runScheduler ⟨[⟨"P1", none, none, none⟩], 9, false, false, [], fun _ => []⟩ 0 0
      [⟨0, ⟨false, [], false, []⟩⟩] [false]).trace.length =
      (get_week_dates 0 0).length *
        (⟨[⟨"P1", none, none, none⟩], 9, false, false, [], fun _ => []⟩ : RunArgs).schedule.length :=
  claim_C2 ⟨[⟨"P1", none, none, none⟩], 9, false, false, [], fun _ => []⟩ 0 0
    [⟨0, ⟨false, [], false, []⟩⟩] [false] rfl

/-- Counterexample to C2 as stated: a one-slot run whose single create call
fails prints exactly the same final summary (`created = 0`, `skipped = 0`)
as an empty run with no failures at all — the summary contains no failed
count and does not reflect the number of failed slots. -/
theorem claim_C2_counterexample :
    printedSummary ⟨[⟨"P1", none, none, none⟩], 9, false, false, [], fun _ => []⟩ 0 0
      (runScheduler ⟨[⟨"P1", none, none, none⟩], 9, false, false, [], fun _ => []⟩ 0 0
        [⟨0, ⟨false, [], false, []⟩⟩] [false]) =
      printedSummary ⟨[], 9, false, false, [], fun _ => []⟩ 0 0
        (runScheduler ⟨[], 9, false, false, [], fun _ => []⟩ 0 0 [] []) ∧
    countOutcome .failed
      (runScheduler ⟨[⟨"P1", none, none, none⟩], 9, false, false, [], fun _ => []⟩ 0 0
        [⟨0, ⟨false, [], false, []⟩⟩] [false]).trace = 1 ∧
    countOutcome .failed
      (runScheduler ⟨[], 9, false, false, [], fun _ => []⟩ 0 0 [] []).trace = 0 := by
  refine ⟨by decide, by decide, by decide⟩

end ClockifyUtils
